import Mathlib

/-!
Shallow embedding of `src/scanner.rs` (the `LineStart` line-prefix scanner)
and verification of its specified properties.

Modelling conventions:
* Bytes are `Nat` values `< 256`; a byte string is a `List Nat`.
* Rust `usize`/`u64` arithmetic is modelled as `Nat` with explicit wraparound
  modulo `2 ^ 64` (`W`) at every subtraction or accumulation that can leave
  `[0, 2^64)` — the release-profile two's-complement semantics.  The sites
  where this matters are `n_save - n` and `self.cur - self.tab_start` in
  `scan_space`, and `val * 10 + digit` in `scan_list_marker`.
* The `while n > 0` loop of `scan_space` decreases `n` by at least one column
  per iteration (a space consumes one column, a tab at least one), so running
  it with structural fuel `n` is exact; `scanSpaceLoop_fuel` proves the result
  is fuel-independent once the fuel covers the requested column count.
* The digit loop of `scan_list_marker` has no such bound (its `peek` does not
  depend on the cursor), so it takes an explicit fuel argument and returns
  `none` when the fuel is exhausted, i.e. when the Rust loop would still be
  running after that many iterations.
* Rust's fallible indexing (`self.bytes[self.cur]` in `next`) is modelled
  with `Option`.
-/

set_option autoImplicit false

namespace Rsmd

/-- The modulus of Rust `usize`/`u64` arithmetic. -/
def W : Nat := 2 ^ 64

/-- Wrapping (two's-complement) subtraction on `usize`/`u64` values:
`(a - b) mod 2^64`, Rust release-profile overflow semantics. -/
def wsub (a b : Nat) : Nat := (a + (W - b % W)) % W

/-- The scanner state of `LineStart<'a>` in `src/scanner.rs`.  `bytes` is the
borrowed byte view; the other fields are the mutable bookkeeping state. -/
structure LineStart where
  bytes : List Nat
  cur : Nat
  tab_start : Nat
  spaces_remaining : Nat
  min_hrule_offset : Nat
  deriving DecidableEq, Repr

/-- Rust `LineStart::new`: fresh scanner at offset 0. -/
def LineStart.new (bytes : List Nat) : LineStart :=
  { bytes := bytes, cur := 0, tab_start := 0, spaces_remaining := 0,
    min_hrule_offset := 0 }

namespace LineStart

/-- Rust `LineStart::has_next`: `self.cur < self.bytes.len()`. -/
def has_next (s : LineStart) : Bool :=
  s.cur < s.bytes.length

/-- Rust `LineStart::peek`: `self.bytes.last().copied()` — note that the
source inspects the LAST byte of the buffer, not the byte at `cur`. -/
def peek (s : LineStart) : Option Nat :=
  s.bytes.getLast?

/-- Rust `LineStart::next`: returns `self.bytes[self.cur]` and advances
`cur`; the out-of-bounds panic is modelled as `none`. -/
def next (s : LineStart) : Option (Nat × LineStart) :=
  match s.bytes.get? s.cur with
  | some ch => some (ch, { s with cur := s.cur + 1 })
  | none => none

/-- Rust `LineStart::is_at_eol`:
`self.peek().map_or(true, |b| matches!(b, b'\r' | b'\n'))`. -/
def is_at_eol (s : LineStart) : Bool :=
  match s.peek with
  | some b => b = 13 || b = 10
  | none => true

/-- Rust `LineStart::skip_spaces` (for `cur ≤ bytes.len()`, where the Rust
slice `self.bytes[self.cur..]` does not panic). -/
def skip_spaces (s : LineStart) : LineStart :=
  { s with spaces_remaining := 0,
           cur := s.cur + ((s.bytes.drop s.cur).takeWhile
             (fun b => b = 32 || b = 9)).length }

/-- The column width the next tab byte would occupy in `scan_space`:
`4 - (self.cur - self.tab_start) % 4`, with wrapping `usize` subtraction. -/
def spc (s : LineStart) : Nat :=
  4 - (wsub s.cur s.tab_start) % 4

/-- The state written by the tab arm of the `scan_space` loop when `x` of the
tab's `spc s` columns are charged against the request:
`spaces_remaining = spaces - x`, `cur += 1`, `tab_start += cur`. -/
def tabStep (s : LineStart) (x : Nat) : LineStart :=
  { s with spaces_remaining := spc s - x,
           cur := s.cur + 1,
           tab_start := s.tab_start + (s.cur + 1) }

/-- The `while n > 0` loop of `LineStart::scan_space`, with structural fuel
(first argument).  The second component of the result is the final value of
`n` (the columns that remained unsatisfied).  Each iteration matches on
`peek` exactly as the source does: `b' '` (32) consumes one column and one
byte; `b'\t'` (9) computes `spaces = 4 - (cur - tab_start) % 4` (wrapping
subtraction), charges `x = min n spaces` columns, stores the leftover in
`spaces_remaining`, advances `cur` by one and performs `tab_start += cur`;
any other byte (and end of buffer) breaks.  Since each iteration satisfies
at least one column, fuel `n` is exact (`scanSpaceLoop_fuel`). -/
def scanSpaceLoop : Nat → LineStart → Nat → LineStart × Nat
  | _, s, 0 => (s, 0)
  | 0, s, n + 1 => (s, n + 1)
  | fuel + 1, s, n + 1 =>
    match s.peek with
    | some b =>
      if b = 32 then scanSpaceLoop fuel { s with cur := s.cur + 1 } n
      else if b = 9 then
        scanSpaceLoop fuel (tabStep s (min (n + 1) (spc s))) (n + 1 - min (n + 1) (spc s))
      else (s, n + 1)
    | none => (s, n + 1)

/-- The loop as `scan_space` runs it: fuel equal to the (remaining) requested
column count, which `scanSpaceLoop_fuel` proves exact. -/
def loopRun (s : LineStart) (n : Nat) : LineStart × Nat :=
  scanSpaceLoop n s n

/-- Rust `LineStart::scan_space` up to the return expression: the preamble takes
`x = min spaces_remaining n` columns from the pending-tab counter, then the
loop runs on the remaining `n - x` columns.  Returns the final state and the
final value of `n` (unsatisfied columns). -/
def scanSpaceAux (s : LineStart) (n : Nat) : LineStart × Nat :=
  let x := min s.spaces_remaining n
  loopRun { s with spaces_remaining := s.spaces_remaining - x } (n - x)

/-- Rust `LineStart::scan_space`: the returned value is `n_save - n` where the
source initialises `n_save = 0`, so the Rust `usize` result is the wrapping
difference `0 - n_final`. -/
def scan_space (s : LineStart) (n : Nat) : LineStart × Nat :=
  ((scanSpaceAux s n).1, wsub 0 (scanSpaceAux s n).2)

/-- The number of virtual columns `scan_space` actually consumes: the request
minus what the loop left unsatisfied. -/
def columnsConsumed (s : LineStart) (n : Nat) : Nat :=
  n - (scanSpaceAux s n).2

/-- Rust `LineStart::scan_ch`: consume the next byte iff `peek` equals `ch`. -/
def scan_ch (s : LineStart) (ch : Nat) : LineStart × Bool :=
  match s.peek with
  | some c => if c = ch then ({ s with cur := s.cur + 1 }, true) else (s, false)
  | none => (s, false)

/-- Rust `LineStart::try_scan`: run `body` on the state; keep the mutation on
`Ok`, restore the pre-attempt state verbatim on `Err` (modelled as `none`). -/
def try_scan {R : Type} (s : LineStart) (body : LineStart → Option (LineStart × R)) :
    LineStart × Option R :=
  match body s with
  | some (s', r) => (s', some r)
  | none => (s, none)

/-- The closure passed to `try_scan` by `scan_blockquote_marker`:
`scan_space(3)`, require `'>'` (byte 62), then `scan_space(1)`. -/
def bqBody (s0 : LineStart) : Option (LineStart × Bool) :=
  let s1 := (scan_space s0 3).1
  let p := scan_ch s1 62
  if p.2 then some ((scan_space p.1 1).1, true) else none

/-- Rust `LineStart::scan_blockquote_marker`: `try_scan(..).unwrap_or(false)`. -/
def scan_blockquote_marker (s : LineStart) : LineStart × Bool :=
  let r := try_scan s bqBody
  (r.1, r.2.getD false)

/-- Rust `u8::is_ascii_digit`. -/
def isAsciiDigit (b : Nat) : Bool :=
  48 ≤ b && b ≤ 57

/-- The `while let Some(ch) = this.peek()` loop of `scan_list_marker`, with
explicit fuel; `none` means the fuel ran out (the Rust loop is still
running).  `some (s, none)` is `Err` (loop exit or `break`); `some (s, some
(ch, val))` is `Ok((ch, val))`.  `val` accumulates `val * 10 + digit` with
`u64` wraparound. -/
def listLoop : Nat → LineStart → Nat → Option (LineStart × Option (Nat × Nat))
  | 0, _, _ => none
  | fuel + 1, s, val =>
    match s.peek with
    | none => some (s, none)
    | some ch =>
      let s1 : LineStart := { s with cur := s.cur + 1 }
      if isAsciiDigit ch then
        listLoop fuel s1 ((val * 10 + (ch - 48)) % W)
      else if ch = 41 || ch = 46 then
        let p := scan_space s1 1
        if p.2 = 1 then some (p.1, some (ch, val))
        else if is_at_eol p.1 then some (p.1, some (ch, val))
        else some (p.1, none)
      else some (s1, none)

/-- The closure passed to `try_scan` by `scan_list_marker`: `scan_space(3)`,
then either a bullet byte (`'-'` 45, `'+'` 43, `'*'` 42) followed by one
column of whitespace or end-of-line, or a digit run handled by `listLoop`. -/
def listBody (fuel : Nat) (s0 : LineStart) : Option (LineStart × Option (Nat × Nat)) :=
  let s := (scan_space s0 3).1
  match s.peek with
  | some ch =>
    if ch = 45 || ch = 43 || ch = 42 then
      let s1 : LineStart := { s with cur := s.cur + 1 }
      let p := scan_space s1 1
      if p.2 = 1 then some (p.1, some (ch, 0))
      else if is_at_eol p.1 then some (p.1, some (ch, 0))
      else some (p.1, none)
    else if isAsciiDigit ch then
      listLoop fuel { s with cur := s.cur + 1 } ((ch - 48) % W)
    else some (s, none)
  | none => some (s, none)

/-- Rust `LineStart::scan_list_marker`: `try_scan(..).ok()`.  `none` propagates
fuel exhaustion; `some (s, none)` is "no match" with the state rolled back;
`some (s, some (ch, val))` is a match committing the mutated state. -/
def scan_list_marker (fuel : Nat) (s : LineStart) :
    Option (LineStart × Option (Nat × Nat)) :=
  match listBody fuel s with
  | none => none
  | some (s', some r) => some (s', some r)
  | some (_, none) => some (s, none)

/-- The tail of the task-list closure after the checkbox content byte:
require `']'` (byte 93), then one column of whitespace or end-of-line. -/
def taskTail (s : LineStart) (checked : Bool) : Option (LineStart × Bool) :=
  let p := scan_ch s 93
  if p.2 then
    let q := scan_space p.1 1
    if q.2 = 1 then some (q.1, checked)
    else if is_at_eol q.1 then some (q.1, checked)
    else none
  else none

/-- The closure passed to `try_scan` by `scan_task_list_marker`:
`scan_space(3)`, require `'['` (91), then `' '` (unchecked) or `'x'`/`'X'`
(120/88, checked), then the tail. -/
def taskBody (s0 : LineStart) : Option (LineStart × Bool) :=
  let s := (scan_space s0 3).1
  let p := scan_ch s 91
  if p.2 then
    match p.1.peek with
    | some 32 => taskTail { p.1 with cur := p.1.cur + 1 } false
    | some 120 => taskTail { p.1 with cur := p.1.cur + 1 } true
    | some 88 => taskTail { p.1 with cur := p.1.cur + 1 } true
    | _ => none
  else none

/-- Rust `LineStart::scan_task_list_marker`: `try_scan(..).ok()`. -/
def scan_task_list_marker (s : LineStart) : LineStart × Option Bool :=
  try_scan s taskBody

/-! ### Basic lemmas about the `scan_space` loop -/

theorem scanSpaceLoop_zero (f : Nat) (s : LineStart) : scanSpaceLoop f s 0 = (s, 0) := by
  cases f <;> rfl

theorem scanSpaceLoop_fuel_zero (s : LineStart) (n : Nat) : scanSpaceLoop 0 s n = (s, n) := by
  cases n <;> rfl

theorem scanSpaceLoop_succ (f : Nat) (s : LineStart) (n : Nat) :
    scanSpaceLoop (f + 1) s (n + 1) =
      match s.peek with
      | some b =>
        if b = 32 then scanSpaceLoop f { s with cur := s.cur + 1 } n
        else if b = 9 then
          scanSpaceLoop f (tabStep s (min (n + 1) (spc s))) (n + 1 - min (n + 1) (spc s))
        else (s, n + 1)
      | none => (s, n + 1) := rfl

theorem spc_pos (s : LineStart) : 1 ≤ spc s := by
  have h : (wsub s.cur s.tab_start) % 4 < 4 := Nat.mod_lt _ (by omega)
  unfold spc
  omega

theorem scanSpaceLoop_fuel (n : Nat) : ∀ (f₁ f₂ : Nat) (s : LineStart), n ≤ f₁ → n ≤ f₂ →
    scanSpaceLoop f₁ s n = scanSpaceLoop f₂ s n := by
  induction n using Nat.strong_induction_on with
  | _ n ih =>
    intro f₁ f₂ s h₁ h₂
    cases n with
    | zero => rw [scanSpaceLoop_zero, scanSpaceLoop_zero]
    | succ n =>
      obtain ⟨g₁, rfl⟩ : ∃ g, f₁ = g + 1 := ⟨f₁ - 1, by omega⟩
      obtain ⟨g₂, rfl⟩ : ∃ g, f₂ = g + 1 := ⟨f₂ - 1, by omega⟩
      rw [scanSpaceLoop_succ, scanSpaceLoop_succ]
      cases hp : s.peek with
      | none => rfl
      | some b =>
        by_cases hb : b = 32
        · simp only [hb, if_true, reduceIte]
          exact ih n (by omega) g₁ g₂ _ (by omega) (by omega)
        · by_cases hb9 : b = 9
          · have hx : 1 ≤ min (n + 1) (spc s) := le_min (by omega) (spc_pos s)
            simp only [hb, hb9, reduceIte]
            exact ih (n + 1 - min (n + 1) (spc s)) (by omega) g₁ g₂ _ (by omega) (by omega)
          · simp only [hb, hb9, reduceIte]

theorem loopRun_zero (s : LineStart) : loopRun s 0 = (s, 0) := rfl

theorem loopRun_space (s : LineStart) (n : Nat) (h : s.peek = some 32) :
    loopRun s (n + 1) = loopRun { s with cur := s.cur + 1 } n := by
  unfold loopRun
  rw [scanSpaceLoop_succ, h]
  rfl

theorem loopRun_tab (s : LineStart) (n : Nat) (h : s.peek = some 9) :
    loopRun s (n + 1) =
      loopRun (tabStep s (min (n + 1) (spc s))) (n + 1 - min (n + 1) (spc s)) := by
  have hx : 1 ≤ min (n + 1) (spc s) := le_min (by omega) (spc_pos s)
  unfold loopRun
  rw [scanSpaceLoop_succ, h]
  show scanSpaceLoop n (tabStep s (min (n + 1) (spc s))) (n + 1 - min (n + 1) (spc s)) = _
  exact scanSpaceLoop_fuel _ _ _ _ (by omega) (le_refl _)

theorem loopRun_stuck (s : LineStart) (n : Nat)
    (h : ∀ b, s.peek = some b → b ≠ 32 ∧ b ≠ 9) :
    loopRun s n = (s, n) := by
  cases n with
  | zero => rfl
  | succ n =>
    unfold loopRun
    rw [scanSpaceLoop_succ]
    cases hp : s.peek with
    | none => rfl
    | some b =>
      obtain ⟨h32, h9⟩ := h b hp
      simp [h32, h9]

theorem tabStep_bytes (s : LineStart) (x : Nat) : (tabStep s x).bytes = s.bytes := rfl

theorem scanSpaceLoop_bytes (f : Nat) : ∀ (s : LineStart) (n : Nat),
    (scanSpaceLoop f s n).1.bytes = s.bytes := by
  induction f with
  | zero =>
    intro s n
    rw [scanSpaceLoop_fuel_zero]
  | succ f ih =>
    intro s n
    cases n with
    | zero => rw [scanSpaceLoop_zero]
    | succ n =>
      rw [scanSpaceLoop_succ]
      cases hp : s.peek with
      | none => rfl
      | some b =>
        by_cases hb : b = 32
        · simp only [hb, reduceIte]
          rw [ih]
        · by_cases hb9 : b = 9
          · simp only [hb9]
            simp
            rw [ih, tabStep_bytes]
          · simp [hb, hb9]

theorem loopRun_bytes (s : LineStart) (n : Nat) : (loopRun s n).1.bytes = s.bytes :=
  scanSpaceLoop_bytes n s n

theorem scanSpaceLoop_rem_le (f : Nat) : ∀ (s : LineStart) (n : Nat),
    (scanSpaceLoop f s n).2 ≤ n := by
  induction f with
  | zero =>
    intro s n
    rw [scanSpaceLoop_fuel_zero]
  | succ f ih =>
    intro s n
    cases n with
    | zero => rw [scanSpaceLoop_zero]
    | succ n =>
      rw [scanSpaceLoop_succ]
      cases hp : s.peek with
      | none => exact le_refl _
      | some b =>
        by_cases hb : b = 32
        · simp only [hb, reduceIte]
          exact le_trans (ih _ n) (by omega)
        · by_cases hb9 : b = 9
          · simp only [hb9]
            simp
            exact le_trans (ih _ _) (by omega)
          · simp only [hb, hb9, reduceIte]
            exact le_refl _

theorem loopRun_rem_le (s : LineStart) (n : Nat) : (loopRun s n).2 ≤ n :=
  scanSpaceLoop_rem_le n s n

theorem scanSpaceAux_rem_le (s : LineStart) (n : Nat) : (scanSpaceAux s n).2 ≤ n := by
  unfold scanSpaceAux
  exact le_trans (loopRun_rem_le _ _) (by omega)

theorem update_sr_eq_self (s : LineStart) :
    { s with spaces_remaining := s.spaces_remaining } = s := by
  cases s
  rfl

theorem update_sr_val (s : LineStart) (v : Nat) (h : s.spaces_remaining = v) :
    { s with spaces_remaining := v } = s := by
  subst h
  rfl

theorem scanSpaceAux_sr_zero (s : LineStart) (n : Nat) (h : s.spaces_remaining = 0) :
    scanSpaceAux s n = loopRun s n := by
  unfold scanSpaceAux
  simp only [h, Nat.zero_min, Nat.zero_sub, Nat.sub_zero]
  rw [update_sr_val s 0 h]

theorem scanSpaceAux_def (s : LineStart) (n : Nat) :
    scanSpaceAux s n =
      loopRun { s with spaces_remaining := s.spaces_remaining - min s.spaces_remaining n }
        (n - min s.spaces_remaining n) := rfl

theorem update_sr_update (s : LineStart) (v w : Nat) :
    { { s with spaces_remaining := v } with spaces_remaining := w } =
      { s with spaces_remaining := w } := rfl

theorem tabStep_sr_shift (s : LineStart) (x y : Nat) :
    { tabStep s x with spaces_remaining := spc s - x - y } = tabStep s (x + y) := by
  unfold tabStep
  simp [Nat.sub_sub]

/-- When the tab's column width covers the whole remaining request, the loop
charges the request against the tab and exits with the leftover width parked
in `spaces_remaining`. -/
theorem loopRun_tab_exit (s : LineStart) (k : Nat) (hp : s.peek = some 9)
    (hk : 1 ≤ k) (hle : k ≤ spc s) :
    loopRun s k = (tabStep s k, 0) := by
  obtain ⟨n, rfl⟩ : ∃ n, k = n + 1 := ⟨k - 1, by omega⟩
  rw [loopRun_tab s n hp, min_eq_left hle, Nat.sub_self, loopRun_zero]

/-- When the request exceeds the tab's column width, the loop consumes the
whole tab and continues on the remaining request. -/
theorem loopRun_tab_cont (s : LineStart) (k : Nat) (hp : s.peek = some 9)
    (hlt : spc s < k) :
    loopRun s k = loopRun (tabStep s (spc s)) (k - spc s) := by
  obtain ⟨n, rfl⟩ : ∃ n, k = n + 1 := ⟨k - 1, by have := spc_pos s; omega⟩
  rw [loopRun_tab s n hp, min_eq_right (by omega)]

/-- Core composition fact: running the loop for `n` columns and then a full
`scan_space`-style pass (pending-counter preamble plus loop) for `m` more
columns reaches the same state as one loop pass for `n + m` columns, and the
unsatisfied remainders add up.  The `spaces_remaining = 0` precondition
matches every state in which `scan_space` actually enters the loop. -/
theorem loopRun_comp (n : Nat) : ∀ (s : LineStart) (m : Nat), s.spaces_remaining = 0 →
    (scanSpaceAux (loopRun s n).1 m).1 = (loopRun s (n + m)).1 ∧
    (loopRun s (n + m)).2 = (loopRun s n).2 + (scanSpaceAux (loopRun s n).1 m).2 := by
  induction n using Nat.strong_induction_on with
  | _ n ih =>
    intro s m hsr
    cases n with
    | zero =>
      refine ⟨?_, ?_⟩
      · show (scanSpaceAux s m).1 = (loopRun s (0 + m)).1
        rw [scanSpaceAux_sr_zero s m hsr, Nat.zero_add]
      · show (loopRun s (0 + m)).2 = 0 + (scanSpaceAux s m).2
        rw [scanSpaceAux_sr_zero s m hsr, Nat.zero_add, Nat.zero_add]
    | succ n =>
      cases hp : s.peek with
      | none =>
        have hstuck : ∀ k, loopRun s k = (s, k) := fun k =>
          loopRun_stuck s k (by
            intro c hc
            rw [hp] at hc
            exact Option.noConfusion hc)
        have hA : scanSpaceAux (loopRun s (n + 1)).1 m = (s, m) := by
          rw [hstuck (n + 1)]
          show scanSpaceAux s m = (s, m)
          rw [scanSpaceAux_sr_zero s m hsr, hstuck m]
        refine ⟨?_, ?_⟩
        · rw [hA, hstuck (n + 1 + m)]
        · rw [hA, hstuck (n + 1 + m), hstuck (n + 1)]
      | some b =>
        by_cases hb : b = 32
        · subst hb
          have hs1 : loopRun s (n + 1) = loopRun { s with cur := s.cur + 1 } n :=
            loopRun_space s n hp
          have hs2 : loopRun s (n + 1 + m) = loopRun { s with cur := s.cur + 1 } (n + m) := by
            have e : n + 1 + m = (n + m) + 1 := by omega
            rw [e]
            exact loopRun_space s (n + m) hp
          have ihn := ih n (by omega) { s with cur := s.cur + 1 } m hsr
          refine ⟨?_, ?_⟩
          · rw [hs1, hs2]
            exact ihn.1
          · rw [hs1, hs2]
            exact ihn.2
        · by_cases hb9 : b = 9
          · subst hb9
            by_cases hcase : spc s < n + 1
            · have hs1 := loopRun_tab_cont s (n + 1) hp hcase
              have hs2 := loopRun_tab_cont s (n + 1 + m) hp (by omega)
              have h0 : (tabStep s (spc s)).spaces_remaining = 0 := Nat.sub_self _
              have ihn := ih (n + 1 - spc s) (by have := spc_pos s; omega)
                (tabStep s (spc s)) m h0
              have e : n + 1 + m - spc s = (n + 1 - spc s) + m := by omega
              refine ⟨?_, ?_⟩
              · rw [hs1, hs2, e]
                exact ihn.1
              · rw [hs1, hs2, e]
                exact ihn.2
            · have hk : n + 1 ≤ spc s := by omega
              have hs1 := loopRun_tab_exit s (n + 1) hp (by omega) hk
              have ht1 : (tabStep s (n + 1)).spaces_remaining = spc s - (n + 1) := rfl
              by_cases hm : n + 1 + m ≤ spc s
              · have hs2 := loopRun_tab_exit s (n + 1 + m) hp (by omega) hm
                have hx2 : min (spc s - (n + 1)) m = m := min_eq_right (by omega)
                refine ⟨?_, ?_⟩
                · rw [hs1, hs2]
                  show (scanSpaceAux (tabStep s (n + 1)) m).1 = tabStep s (n + 1 + m)
                  rw [scanSpaceAux_def, ht1, hx2, Nat.sub_self, loopRun_zero]
                  show { tabStep s (n + 1) with
                    spaces_remaining := spc s - (n + 1) - m } = tabStep s (n + 1 + m)
                  rw [tabStep_sr_shift]
                · rw [hs1, hs2]
                  show (0 : Nat) = 0 + (scanSpaceAux (tabStep s (n + 1)) m).2
                  rw [scanSpaceAux_def, ht1, hx2, Nat.sub_self, loopRun_zero]
                  rfl
              · have hx2 : min (spc s - (n + 1)) m = spc s - (n + 1) := min_eq_left (by omega)
                have hs2 := loopRun_tab_cont s (n + 1 + m) hp (by omega)
                have haux : scanSpaceAux (tabStep s (n + 1)) m =
                    loopRun (tabStep s (spc s)) (n + 1 + m - spc s) := by
                  rw [scanSpaceAux_def, ht1, hx2]
                  have e1 : { tabStep s (n + 1) with
                      spaces_remaining := spc s - (n + 1) - (spc s - (n + 1)) } =
                      tabStep s (spc s) := by
                    rw [tabStep_sr_shift]
                    congr 1
                    omega
                  rw [e1]
                  congr 1
                  omega
                refine ⟨?_, ?_⟩
                · rw [hs1, hs2]
                  show (scanSpaceAux (tabStep s (n + 1)) m).1 =
                    (loopRun (tabStep s (spc s)) (n + 1 + m - spc s)).1
                  rw [haux]
                · rw [hs1, hs2]
                  show (loopRun (tabStep s (spc s)) (n + 1 + m - spc s)).2 =
                    0 + (scanSpaceAux (tabStep s (n + 1)) m).2
                  rw [haux, Nat.zero_add]
          · have hstuck : ∀ k, loopRun s k = (s, k) := fun k =>
              loopRun_stuck s k (by
                intro c hc
                rw [hp] at hc
                cases hc
                exact ⟨hb, hb9⟩)
            have hA : scanSpaceAux (loopRun s (n + 1)).1 m = (s, m) := by
              rw [hstuck (n + 1)]
              show scanSpaceAux s m = (s, m)
              rw [scanSpaceAux_sr_zero s m hsr, hstuck m]
            refine ⟨?_, ?_⟩
            · rw [hA, hstuck (n + 1 + m)]
            · rw [hA, hstuck (n + 1 + m), hstuck (n + 1)]

/-- Composition of two full `scan_space` passes: same final state as a single
pass for the summed request, and the unsatisfied remainders add up. -/
theorem scanSpaceAux_comp (s : LineStart) (a b : Nat) :
    (scanSpaceAux (scanSpaceAux s a).1 b).1 = (scanSpaceAux s (a + b)).1 ∧
    (scanSpaceAux s (a + b)).2 =
      (scanSpaceAux s a).2 + (scanSpaceAux (scanSpaceAux s a).1 b).2 := by
  by_cases hc : s.spaces_remaining < a
  · have hx : min s.spaces_remaining a = s.spaces_remaining := min_eq_left (by omega)
    have hxc : min s.spaces_remaining (a + b) = s.spaces_remaining := min_eq_left (by omega)
    have hA : scanSpaceAux s a =
        loopRun { s with spaces_remaining := 0 } (a - s.spaces_remaining) := by
      rw [scanSpaceAux_def, hx, Nat.sub_self]
    have hC : scanSpaceAux s (a + b) =
        loopRun { s with spaces_remaining := 0 } (a + b - s.spaces_remaining) := by
      rw [scanSpaceAux_def, hxc, Nat.sub_self]
    have h0 : ({ s with spaces_remaining := 0 } : LineStart).spaces_remaining = 0 := rfl
    have hcomp := loopRun_comp (a - s.spaces_remaining) { s with spaces_remaining := 0 } b h0
    have e : a + b - s.spaces_remaining = (a - s.spaces_remaining) + b := by omega
    refine ⟨?_, ?_⟩
    · rw [hA, hC, e]
      exact hcomp.1
    · rw [hA, hC, e]
      exact hcomp.2
  · have hx : min s.spaces_remaining a = a := min_eq_right (by omega)
    have hA1 : scanSpaceAux s a =
        ({ s with spaces_remaining := s.spaces_remaining - a }, 0) := by
      rw [scanSpaceAux_def, hx, Nat.sub_self, loopRun_zero]
    have hA1fst : (scanSpaceAux s a).1 =
        { s with spaces_remaining := s.spaces_remaining - a } := by rw [hA1]
    have hA1snd : (scanSpaceAux s a).2 = 0 := by rw [hA1]
    have hsrs : ({ s with spaces_remaining := s.spaces_remaining - a } :
        LineStart).spaces_remaining = s.spaces_remaining - a := rfl
    by_cases hm : b ≤ s.spaces_remaining - a
    · have hxb : min (s.spaces_remaining - a) b = b := min_eq_right hm
      have hxc : min s.spaces_remaining (a + b) = a + b := min_eq_right (by omega)
      have h2 : scanSpaceAux { s with spaces_remaining := s.spaces_remaining - a } b =
          ({ s with spaces_remaining := s.spaces_remaining - (a + b) }, 0) := by
        rw [scanSpaceAux_def, hsrs, hxb, Nat.sub_self, loopRun_zero, update_sr_update,
          Nat.sub_sub]
      have hC : scanSpaceAux s (a + b) =
          ({ s with spaces_remaining := s.spaces_remaining - (a + b) }, 0) := by
        rw [scanSpaceAux_def, hxc, Nat.sub_self, loopRun_zero]
      refine ⟨?_, ?_⟩
      · rw [hA1fst, h2, hC]
      · rw [hC, hA1snd, hA1fst, h2]
        rfl
    · have hxb : min (s.spaces_remaining - a) b = s.spaces_remaining - a :=
        min_eq_left (by omega)
      have hxc : min s.spaces_remaining (a + b) = s.spaces_remaining :=
        min_eq_left (by omega)
      have e : b - (s.spaces_remaining - a) = a + b - s.spaces_remaining := by omega
      have h2 : scanSpaceAux { s with spaces_remaining := s.spaces_remaining - a } b =
          loopRun { s with spaces_remaining := 0 } (a + b - s.spaces_remaining) := by
        rw [scanSpaceAux_def, hsrs, hxb, Nat.sub_self, update_sr_update, e]
      have hC : scanSpaceAux s (a + b) =
          loopRun { s with spaces_remaining := 0 } (a + b - s.spaces_remaining) := by
        rw [scanSpaceAux_def, hxc, Nat.sub_self]
      refine ⟨?_, ?_⟩
      · rw [hA1fst, h2, hC]
      · rw [hC, hA1snd, hA1fst, h2, Nat.zero_add]

theorem wsub_zero_zero : wsub 0 0 = 0 := by decide

/-! ### Theorems for the specification claims -/

/-- C1: for every recognizer (`scan_blockquote_marker`, `scan_list_marker`,
`scan_task_list_marker`) and every scanner state, if the recognizer reports
no match (`false` / `none`), the scanner state afterwards — in particular the
cursor, the pending-column counter `spaces_remaining` and the tab origin
`tab_start` — is exactly the state before the call. -/
theorem recognizers_rollback_on_no_match (s s' : LineStart) (fuel : Nat) :
    ((scan_blockquote_marker s).2 = false → (scan_blockquote_marker s).1 = s) ∧
    (scan_list_marker fuel s = some (s', none) → s' = s) ∧
    ((scan_task_list_marker s).2 = none → (scan_task_list_marker s).1 = s) := by
  refine ⟨?_, ?_, ?_⟩
  · intro h
    unfold scan_blockquote_marker try_scan at h ⊢
    cases hb : bqBody s with
    | none => rfl
    | some p =>
      exfalso
      obtain ⟨ps, pr⟩ := p
      have hpr : pr = true := by
        simp only [bqBody] at hb
        split at hb
        · rw [Option.some.injEq, Prod.mk.injEq] at hb
          exact hb.2.symm
        · exact Option.noConfusion hb
      rw [hb, hpr] at h
      exact Bool.noConfusion h
  · intro h
    unfold scan_list_marker at h
    split at h
    · exact Option.noConfusion h
    · rw [Option.some.injEq, Prod.mk.injEq] at h
      exact Option.noConfusion h.2
    · rw [Option.some.injEq, Prod.mk.injEq] at h
      exact h.1.symm
  · intro h
    unfold scan_task_list_marker try_scan at h ⊢
    cases hb : taskBody s with
    | none => rfl
    | some p =>
      exfalso
      rw [hb] at h
      obtain ⟨ps, pr⟩ := p
      exact Option.noConfusion h

/-- Witness for C1 at the concrete one-byte line "a" (byte 97): every
recognizer reports no match there and hands back the untouched state. -/
theorem recognizers_rollback_on_no_match_witness :
    (scan_blockquote_marker (LineStart.new [97])).1 = LineStart.new [97] ∧
    LineStart.new [97] = LineStart.new [97] ∧
    (scan_task_list_marker (LineStart.new [97])).1 = LineStart.new [97] := by
  have h := recognizers_rollback_on_no_match (LineStart.new [97]) (LineStart.new [97]) 1
  exact ⟨h.1 (by decide), h.2.1 (by decide), h.2.2 (by decide)⟩

/-- C2 (counter-evidence): `peek` inspects a fixed position — the final byte
of the whole buffer — not the byte at the cursor.  On the line "ab" (bytes
97, 98) a fresh scanner's `peek` returns the final byte 98 while the next
`next` call consumes 97, and once the cursor has reached the end of the
source (`cur = length = 2`) `peek` still returns `some 98` instead of
reporting end of input. -/
theorem peek_fixed_position_bug :
    peek (LineStart.new [97, 98]) = some 98 ∧
    next (LineStart.new [97, 98]) = some (97, { LineStart.new [97, 98] with cur := 1 }) ∧
    peek { LineStart.new [97, 98] with cur := 2 } = some 98 ∧
    ({ LineStart.new [97, 98] with cur := 2 } : LineStart).cur =
      (LineStart.new [97, 98]).bytes.length := by decide

/-- C3 (counter-evidence): `scan_space` does not return the number of columns
consumed.  On the line " " (one space) with request 1 it consumes the space
(cursor advances to 1, one column consumed) yet returns 0; on the empty line
with request 1 it returns the wrapped value `2^64 - 1`, which exceeds the
request — both because the return baseline `n_save` is initialised to 0. -/
theorem scan_space_return_baseline_bug :
    (scan_space (LineStart.new [32]) 1).2 = 0 ∧
    (scan_space (LineStart.new [32]) 1).1.cur = 1 ∧
    columnsConsumed (LineStart.new [32]) 1 = 1 ∧
    (scan_space (LineStart.new []) 1).2 = 2 ^ 64 - 1 := by decide

/-- C4 (counter-evidence): the cursor invariant `cur ≤ length(source)` is not
preserved.  On the one-byte line " " the call `scan_space 2` advances the
cursor to 2, past the end of the single-byte source, because the loop's
`peek` inspects the (whitespace) final byte instead of the byte at the
cursor and therefore never sees end of input. -/
theorem cursor_exceeds_source_length_bug :
    (scan_space (LineStart.new [32]) 2).1.cur = 2 ∧
    (LineStart.new [32]).bytes.length = 1 ∧
    ¬ (scan_space (LineStart.new [32]) 2).1.cur ≤ (LineStart.new [32]).bytes.length := by
  decide

/-- C5 (examples): `scan_blockquote_marker` on the three boundary inputs of
the claim.  Input ">" (byte 62) matches; input "    > " (4 leading spaces)
fails as claimed; but input "   > " (3 leading spaces) also FAILS, contrary
to the claim, because `scan_ch 62` peeks the final buffer byte (a space)
rather than the `>` at cursor position 3. -/
theorem blockquote_boundary_examples :
    (scan_blockquote_marker (LineStart.new [62])).2 = true ∧
    (scan_blockquote_marker (LineStart.new [32, 32, 32, 62, 32])).2 = false ∧
    (scan_blockquote_marker (LineStart.new [32, 32, 32, 32, 62, 32])).2 = false := by
  decide

/-- C6 (examples): `scan_list_marker` on the claim's three inputs, for every
fuel value (the digit loop is never entered, because the cursor-independent
`peek` returns the final byte `x` = 120 on each input, which is neither a
bullet byte nor a digit).  "- x" and "12) x" report no match, contrary to
the claim; "12x" reports no match as claimed. -/
theorem list_marker_disambiguation_examples (fuel : Nat) :
    scan_list_marker fuel (LineStart.new [45, 32, 120]) =
      some (LineStart.new [45, 32, 120], none) ∧
    scan_list_marker fuel (LineStart.new [49, 50, 41, 32, 120]) =
      some (LineStart.new [49, 50, 41, 32, 120], none) ∧
    scan_list_marker fuel (LineStart.new [49, 50, 120]) =
      some (LineStart.new [49, 50, 120], none) :=
  ⟨rfl, rfl, rfl⟩

/-- C7 (examples): `scan_task_list_marker` on the claim's two inputs.
"[x]y" reports no match as claimed, but "[x]" ALSO reports no match,
contrary to the claim, because `scan_ch 91` peeks the final buffer byte
(`]` = 93) instead of the `[` at cursor position 0. -/
theorem task_marker_eol_examples :
    scan_task_list_marker (LineStart.new [91, 120, 93]) =
      (LineStart.new [91, 120, 93], none) ∧
    scan_task_list_marker (LineStart.new [91, 120, 93, 121]) =
      (LineStart.new [91, 120, 93, 121], none) := by decide

/-- C8: splitting a `scan_space` request into two consecutive calls `a` then
`b` (with no intervening byte consumption) reaches exactly the same scanner
state — cursor, `spaces_remaining`, `tab_start` and all other fields — as the
single call `a + b`, and the two calls together consume the same total
number of virtual columns as the single call. -/
theorem scan_space_additive (s : LineStart) (a b : Nat) :
    (scan_space (scan_space s a).1 b).1 = (scan_space s (a + b)).1 ∧
    columnsConsumed s a + columnsConsumed (scan_space s a).1 b =
      columnsConsumed s (a + b) := by
  have h := scanSpaceAux_comp s a b
  have ha := scanSpaceAux_rem_le s a
  have hb := scanSpaceAux_rem_le (scanSpaceAux s a).1 b
  constructor
  · show (scanSpaceAux (scanSpaceAux s a).1 b).1 = (scanSpaceAux s (a + b)).1
    exact h.1
  · show (a - (scanSpaceAux s a).2) + (b - (scanSpaceAux (scanSpaceAux s a).1 b).2) =
      (a + b) - (scanSpaceAux s (a + b)).2
    have h2 := h.2
    omega

/-- C9: on the one-byte line "\t" (byte 9) with a fresh scanner,
`scan_space 1` consumes 1 column and exactly 1 byte (cursor 0 → 1) and
leaves `spaces_remaining = 3`; the subsequent `scan_space 3` consumes the
remaining 3 columns with zero further cursor advance. -/
theorem tab_column_carry_example :
    (scan_space (LineStart.new [9]) 1).1.cur = 1 ∧
    (scan_space (LineStart.new [9]) 1).1.spaces_remaining = 3 ∧
    columnsConsumed (LineStart.new [9]) 1 = 1 ∧
    (scan_space (scan_space (LineStart.new [9]) 1).1 3).1.cur = 1 ∧
    (scan_space (scan_space (LineStart.new [9]) 1).1 3).1.spaces_remaining = 0 ∧
    columnsConsumed (scan_space (LineStart.new [9]) 1).1 3 = 3 := by decide

/-- C10: `scan_space 0` is an identity — it returns 0 and leaves every field
of the scanner (cursor, `spaces_remaining`, `tab_start`, bytes,
`min_hrule_offset`) unchanged. -/
theorem scan_space_zero_identity (s : LineStart) : scan_space s 0 = (s, 0) := by
  have h : scanSpaceAux s 0 = (s, 0) := by
    rw [scanSpaceAux_def, Nat.min_zero, Nat.sub_zero, Nat.sub_zero, update_sr_eq_self,
      loopRun_zero]
  show ((scanSpaceAux s 0).1, wsub 0 (scanSpaceAux s 0).2) = (s, 0)
  rw [h, wsub_zero_zero]

end LineStart

end Rsmd
